import Mathlib

/-!
Shallow embedding of `src/engineering_team/output/accounts.py`.

Modelling choices:
* Python `float` amounts and prices are modelled as exact rationals `ℚ`
  (the spec calls them decimal amounts); Python `int` quantities as `ℤ`.
* A Python `dict[str, int]` is modelled as an insertion-ordered association
  list `List (String × Int)` with the helpers `dget` / `dset` / `ddel`
  mirroring `d.get`, `d[k] = v` and `del d[k]` (a real dict has no duplicate
  keys, which appears below as the `Nodup` hypothesis where needed).
* A Python method that can `raise` is a function into `Except AccErr _`;
  every `raise` in the source occurs before any field assignment, so a
  method is faithfully a pure function returning either the error or the
  fully updated account.
* `Transaction.timestamp` (wall-clock `datetime.now()`) is omitted: no
  claim refers to it and real time has no shallow embedding.
* The price oracle `get_share_price` closes over a fixed table; operations
  are stated over an arbitrary table `px` (suffix `P`) and the source
  functions are the instantiations at the concrete table `prices`.
-/

namespace Accounts

/-- Error kinds raised by `accounts.py` (messages elided).
`valueError` is Python's built-in `ValueError` used for non-positive
amounts and quantities. -/
inductive AccErr where
  | valueError : AccErr
  | insufficientFunds : AccErr
  | insufficientShares : AccErr
  | invalidSymbol : AccErr
deriving DecidableEq, Repr

/-- A price table: the dict inside `get_share_price`, as a partial map. -/
def PriceTable : Type := String → Option ℚ

/-- The fixed table in `get_share_price`:
AAPL ↦ 150.00, TSLA ↦ 250.00, GOOGL ↦ 130.00. -/
def prices : PriceTable := fun s =>
  if s = "AAPL" then some 150
  else if s = "TSLA" then some 250
  else if s = "GOOGL" then some 130
  else none

/-- `get_share_price` over an arbitrary table: returns the price or raises
`InvalidSymbolError` when the symbol is absent. -/
def get_share_priceP (px : PriceTable) (symbol : String) : Except AccErr ℚ :=
  match px symbol with
  | some p => Except.ok p
  | none => Except.error AccErr.invalidSymbol

/-- The source's `get_share_price`: the fixed table `prices`. -/
def get_share_price : String → Except AccErr ℚ :=
  get_share_priceP prices

/-- `TransactionType` enum. -/
inductive TransactionType where
  | DEPOSIT : TransactionType
  | WITHDRAW : TransactionType
  | BUY : TransactionType
  | SELL : TransactionType
deriving DecidableEq, Repr

/-- The `Transaction` dataclass (timestamp omitted, see module comment). -/
structure Transaction where
  type : TransactionType
  amount : ℚ
  symbol : Option String := none
  quantity : Option Int := none
  share_price : Option ℚ := none
deriving DecidableEq, Repr

/-- `dict.get(k)`: value at the first (only) entry with key `k`. -/
def dget : List (String × Int) → String → Option Int
  | [], _ => none
  | (k1, v) :: rest, k => if k1 = k then some v else dget rest k

/-- `dict.get(k, default)`. -/
def dgetD (d : List (String × Int)) (k : String) (v0 : Int) : Int :=
  (dget d k).getD v0

/-- `d[k] = v`: update in place if the key exists, else append (Python
dicts keep insertion order). -/
def dset : List (String × Int) → String → Int → List (String × Int)
  | [], k, v => [(k, v)]
  | (k1, v1) :: rest, k, v =>
    if k1 = k then (k, v) :: rest else (k1, v1) :: dset rest k v

/-- `del d[k]`: remove the entry with key `k`. -/
def ddel : List (String × Int) → String → List (String × Int)
  | [], _ => []
  | (k1, v1) :: rest, k => if k1 = k then rest else (k1, v1) :: ddel rest k

/-- The mutable state of the `Account` class. -/
structure Account where
  account_id : String
  user_name : String
  cash_balance : ℚ
  total_deposits : ℚ
  holdings : List (String × Int)
  transactions : List Transaction
deriving DecidableEq, Repr

/-- `Account.__init__`. -/
def Account.init (account_id user_name : String) : Account :=
  { account_id := account_id
    user_name := user_name
    cash_balance := 0
    total_deposits := 0
    holdings := []
    transactions := [] }

/-- `Account.deposit`. -/
def Account.deposit (a : Account) (amount : ℚ) : Except AccErr Account :=
  if amount ≤ 0 then Except.error AccErr.valueError
  else Except.ok { a with
    cash_balance := a.cash_balance + amount
    total_deposits := a.total_deposits + amount
    transactions := a.transactions ++
      [{ type := TransactionType.DEPOSIT, amount := amount }] }

/-- `Account.withdraw`. -/
def Account.withdraw (a : Account) (amount : ℚ) : Except AccErr Account :=
  if amount ≤ 0 then Except.error AccErr.valueError
  else if amount > a.cash_balance then Except.error AccErr.insufficientFunds
  else Except.ok { a with
    cash_balance := a.cash_balance - amount
    transactions := a.transactions ++
      [{ type := TransactionType.WITHDRAW, amount := -amount }] }

/-- `Account.buy` over an arbitrary price table. -/
def Account.buyP (px : PriceTable) (a : Account) (symbol : String)
    (quantity : Int) : Except AccErr Account :=
  if quantity ≤ 0 then Except.error AccErr.valueError
  else
    match get_share_priceP px symbol with
    | Except.error e => Except.error e
    | Except.ok price =>
      let total_cost : ℚ := price * quantity
      if total_cost > a.cash_balance then
        Except.error AccErr.insufficientFunds
      else Except.ok { a with
        cash_balance := a.cash_balance - total_cost
        holdings := dset a.holdings symbol (dgetD a.holdings symbol 0 + quantity)
        transactions := a.transactions ++
          [{ type := TransactionType.BUY
             amount := -total_cost
             symbol := some symbol
             quantity := some quantity
             share_price := some price }] }

/-- The source's `Account.buy` (fixed oracle). -/
def Account.buy (a : Account) (symbol : String) (quantity : Int) :
    Except AccErr Account :=
  Account.buyP prices a symbol quantity

/-- `Account.sell` over an arbitrary price table. The shares check uses
`self.holdings.get(symbol, 0)` and precedes the price lookup. -/
def Account.sellP (px : PriceTable) (a : Account) (symbol : String)
    (quantity : Int) : Except AccErr Account :=
  if quantity ≤ 0 then Except.error AccErr.valueError
  else
    let current_quantity : Int := dgetD a.holdings symbol 0
    if current_quantity < quantity then
      Except.error AccErr.insufficientShares
    else
      match get_share_priceP px symbol with
      | Except.error e => Except.error e
      | Except.ok price =>
        let total_sale_value : ℚ := price * quantity
        let h1 := dset a.holdings symbol (current_quantity - quantity)
        let h2 := if dgetD h1 symbol 0 = 0 then ddel h1 symbol else h1
        Except.ok { a with
          cash_balance := a.cash_balance + total_sale_value
          holdings := h2
          transactions := a.transactions ++
            [{ type := TransactionType.SELL
               amount := total_sale_value
               symbol := some symbol
               quantity := some quantity
               share_price := some price }] }

/-- The source's `Account.sell` (fixed oracle). -/
def Account.sell (a : Account) (symbol : String) (quantity : Int) :
    Except AccErr Account :=
  Account.sellP prices a symbol quantity

/-- `Account.get_portfolio_value` over an arbitrary table: the loop body
adds `price * quantity` when the lookup succeeds and swallows
`InvalidSymbolError` (contribution zero) otherwise. -/
def Account.get_portfolio_valueP (px : PriceTable) (a : Account) : ℚ :=
  a.cash_balance +
    a.holdings.foldl (fun acc sq =>
      match get_share_priceP px sq.1 with
      | Except.ok price => acc + price * sq.2
      | Except.error _ => acc) 0

/-- The source's `Account.get_portfolio_value` (fixed oracle). -/
def Account.get_portfolio_value (a : Account) : ℚ :=
  Account.get_portfolio_valueP prices a

/-- `Account.get_profit_loss` over an arbitrary table. -/
def Account.get_profit_lossP (px : PriceTable) (a : Account) : ℚ :=
  Account.get_portfolio_valueP px a - a.total_deposits

/-- The source's `Account.get_profit_loss` (fixed oracle). -/
def Account.get_profit_loss (a : Account) : ℚ :=
  Account.get_profit_lossP prices a

/-- `Account.get_holdings` returns `self.holdings.copy()`; in the pure
model a copy is the value itself. -/
def Account.get_holdings (a : Account) : List (String × Int) :=
  a.holdings

/-- `Account.get_transactions` returns `self.transactions.copy()`. -/
def Account.get_transactions (a : Account) : List Transaction :=
  a.transactions

/-- One mutating call on an account. -/
inductive Op where
  | deposit (amount : ℚ) : Op
  | withdraw (amount : ℚ) : Op
  | buy (symbol : String) (quantity : Int) : Op
  | sell (symbol : String) (quantity : Int) : Op
deriving DecidableEq, Repr

/-- Apply one mutating call (arbitrary table). -/
def Account.applyOpP (px : PriceTable) (a : Account) : Op → Except AccErr Account
  | Op.deposit amount => a.deposit amount
  | Op.withdraw amount => a.withdraw amount
  | Op.buy symbol quantity => Account.buyP px a symbol quantity
  | Op.sell symbol quantity => Account.sellP px a symbol quantity

/-- One call as a total transition: a raised error leaves the account as
it was (the caller catches the exception; Python raises in these methods
happen before any field assignment). -/
def Account.stepP (px : PriceTable) (a : Account) (o : Op) : Account :=
  match Account.applyOpP px a o with
  | Except.ok a1 => a1
  | Except.error _ => a

/-- Run a sequence of calls from a state. -/
def Account.runOpsP (px : PriceTable) (a : Account) (os : List Op) : Account :=
  os.foldl (Account.stepP px) a

/-- Run a sequence of calls with the source's fixed oracle. -/
def Account.runOps (a : Account) (os : List Op) : Account :=
  Account.runOpsP prices a os

/-- Number of calls in the sequence that complete successfully (each call
applied to the state the preceding calls produced). -/
def Account.successCountP (px : PriceTable) (a : Account) : List Op → Nat
  | [] => 0
  | o :: os =>
    match Account.applyOpP px a o with
    | Except.ok a1 => 1 + Account.successCountP px a1 os
    | Except.error _ => Account.successCountP px a os

/-- Keys of an association list, in order. -/
def dkeys (d : List (String × Int)) : List String :=
  d.map Prod.fst

/-- The invariant a Python `dict[str, int]` used as holdings satisfies in
every reachable account state: distinct keys and strictly positive values. -/
def HoldingsInv (d : List (String × Int)) : Prop :=
  (dkeys d).Nodup ∧ ∀ p ∈ d, 0 < p.2

theorem dkeys_cons (k : String) (v : Int) (tl : List (String × Int)) :
    dkeys ((k, v) :: tl) = k :: dkeys tl := rfl

theorem dget_eq_none_iff (d : List (String × Int)) (k : String) :
    dget d k = none ↔ k ∉ dkeys d := by
  induction d with
  | nil => simp [dget, dkeys]
  | cons hd tl ih =>
    obtain ⟨k1, v1⟩ := hd
    rw [dkeys_cons]
    by_cases hk : k1 = k
    · subst hk
      simp [dget]
    · have hk2 : ¬k = k1 := fun hh => hk hh.symm
      simp [dget, hk, hk2, ih]

theorem mem_of_dget (d : List (String × Int)) (k : String) (v : Int)
    (h : dget d k = some v) : (k, v) ∈ d := by
  induction d with
  | nil => simp [dget] at h
  | cons hd tl ih =>
    obtain ⟨k1, v1⟩ := hd
    by_cases hk : k1 = k
    · simp [dget, hk] at h
      simp [hk, h]
    · simp [dget, hk] at h
      exact List.mem_cons_of_mem _ (ih h)

theorem dget_dset_self (d : List (String × Int)) (k : String) (v : Int) :
    dget (dset d k v) k = some v := by
  induction d with
  | nil => simp [dget, dset]
  | cons hd tl ih =>
    obtain ⟨k1, v1⟩ := hd
    by_cases hk : k1 = k <;> simp [dget, dset, hk, ih]

theorem dget_dset_ne (d : List (String × Int)) (k k1 : String) (v : Int)
    (h : k1 ≠ k) : dget (dset d k v) k1 = dget d k1 := by
  have h1 : ¬k = k1 := fun hh => h hh.symm
  induction d with
  | nil => simp [dget, dset, h1]
  | cons hd tl ih =>
    obtain ⟨k2, v2⟩ := hd
    by_cases hk : k2 = k
    · have h2 : ¬k2 = k1 := fun hh => h (hh.symm.trans hk)
      simp [dset, dget, hk, h1, h2]
    · simp [dset, dget, hk, ih]

theorem dset_dset (d : List (String × Int)) (k : String) (v1 v2 : Int) :
    dset (dset d k v1) k v2 = dset d k v2 := by
  induction d with
  | nil => simp [dset]
  | cons hd tl ih =>
    obtain ⟨k1, w⟩ := hd
    by_cases hk : k1 = k <;> simp [dset, hk, ih]

theorem dset_dget_self (d : List (String × Int)) (k : String) (v : Int)
    (h : dget d k = some v) : dset d k v = d := by
  induction d with
  | nil => simp [dget] at h
  | cons hd tl ih =>
    obtain ⟨k1, v1⟩ := hd
    by_cases hk : k1 = k
    · subst hk
      simp [dget] at h
      simp [dset, h]
    · simp [dget, hk] at h
      simp [dset, hk, ih h]

theorem ddel_dset_of_not_mem (d : List (String × Int)) (k : String) (v : Int)
    (h : dget d k = none) : ddel (dset d k v) k = d := by
  induction d with
  | nil => simp [dset, ddel]
  | cons hd tl ih =>
    obtain ⟨k1, v1⟩ := hd
    by_cases hk : k1 = k
    · simp [dget, hk] at h
    · simp [dget, hk] at h
      simp [dset, ddel, hk, ih h]

theorem mem_dset (d : List (String × Int)) (k : String) (v : Int)
    (p : String × Int) (h : p ∈ dset d k v) : p ∈ d ∨ p = (k, v) := by
  induction d with
  | nil => simp [dset] at h; simp [h]
  | cons hd tl ih =>
    obtain ⟨k1, v1⟩ := hd
    by_cases hk : k1 = k
    · simp [dset, hk] at h
      rcases h with h | h
      · simp [h]
      · simp [h]
    · simp [dset, hk] at h
      rcases h with h | h
      · simp [h]
      · rcases ih h with h1 | h1
        · simp [h1]
        · simp [h1]

theorem mem_ddel (d : List (String × Int)) (k : String)
    (hnd : (dkeys d).Nodup) (p : String × Int) (h : p ∈ ddel d k) :
    p ∈ d ∧ p.1 ≠ k := by
  induction d with
  | nil => simp [ddel] at h
  | cons hd tl ih =>
    obtain ⟨k1, v1⟩ := hd
    rw [dkeys_cons] at hnd
    rcases List.nodup_cons.mp hnd with ⟨h1, h2⟩
    by_cases hk : k1 = k
    · simp [ddel, hk] at h
      refine ⟨List.mem_cons_of_mem _ h, ?_⟩
      intro hc
      apply h1
      have hm : p.1 ∈ dkeys tl := by
        simpa [dkeys] using List.mem_map_of_mem Prod.fst h
      rw [hc, ← hk] at hm
      exact hm
    · simp [ddel, hk] at h
      rcases h with h | h
      · refine ⟨by simp [h], ?_⟩
        simp [h, hk]
      · rcases ih h2 h with ⟨hm, hne⟩
        exact ⟨List.mem_cons_of_mem _ hm, hne⟩

theorem mem_dkeys_dset (d : List (String × Int)) (k k1 : String) (v : Int) :
    k1 ∈ dkeys (dset d k v) ↔ k1 ∈ dkeys d ∨ k1 = k := by
  induction d with
  | nil => simp [dset, dkeys]
  | cons hd tl ih =>
    obtain ⟨k2, v2⟩ := hd
    by_cases hk : k2 = k
    · subst hk
      simp [dset, dkeys_cons]
      tauto
    · simp [dset, hk, dkeys_cons, ih]
      tauto

theorem nodup_dkeys_dset (d : List (String × Int)) (k : String) (v : Int)
    (h : (dkeys d).Nodup) : (dkeys (dset d k v)).Nodup := by
  induction d with
  | nil => simp [dset, dkeys]
  | cons hd tl ih =>
    obtain ⟨k1, v1⟩ := hd
    rw [dkeys_cons] at h
    rcases List.nodup_cons.mp h with ⟨h1, h2⟩
    by_cases hk : k1 = k
    · simp [dset, hk, dkeys_cons, List.nodup_cons]
      exact ⟨hk ▸ h1, h2⟩
    · simp [dset, hk, dkeys_cons, List.nodup_cons]
      refine ⟨?_, ih h2⟩
      intro hc
      rcases (mem_dkeys_dset tl k k1 v).mp hc with hm | hm
      · exact h1 hm
      · exact hk hm

theorem sublist_dkeys_ddel (d : List (String × Int)) (k : String) :
    (dkeys (ddel d k)).Sublist (dkeys d) := by
  induction d with
  | nil => simp [ddel]
  | cons hd tl ih =>
    obtain ⟨k1, v1⟩ := hd
    by_cases hk : k1 = k
    · simp [ddel, hk, dkeys_cons]
    · simpa [ddel, hk, dkeys_cons] using ih.cons₂ k1

theorem nodup_dkeys_ddel (d : List (String × Int)) (k : String)
    (h : (dkeys d).Nodup) : (dkeys (ddel d k)).Nodup :=
  (sublist_dkeys_ddel d k).nodup h

/-! ### Branch shape lemmas for the four mutating operations -/

theorem deposit_of_nonpos (a : Account) (amount : ℚ) (h : amount ≤ 0) :
    a.deposit amount = Except.error AccErr.valueError := by
  simp [Account.deposit, h]

theorem deposit_of_pos (a : Account) (amount : ℚ) (h : 0 < amount) :
    a.deposit amount = Except.ok { a with
      cash_balance := a.cash_balance + amount
      total_deposits := a.total_deposits + amount
      transactions := a.transactions ++
        [{ type := TransactionType.DEPOSIT, amount := amount }] } := by
  simp [Account.deposit, not_le.mpr h]

theorem withdraw_of_nonpos (a : Account) (amount : ℚ) (h : amount ≤ 0) :
    a.withdraw amount = Except.error AccErr.valueError := by
  simp [Account.withdraw, h]

theorem withdraw_insufficient (a : Account) (amount : ℚ) (h : 0 < amount)
    (hc : a.cash_balance < amount) :
    a.withdraw amount = Except.error AccErr.insufficientFunds := by
  simp [Account.withdraw, not_le.mpr h, hc]

theorem withdraw_ok (a : Account) (amount : ℚ) (h : 0 < amount)
    (hc : amount ≤ a.cash_balance) :
    a.withdraw amount = Except.ok { a with
      cash_balance := a.cash_balance - amount
      transactions := a.transactions ++
        [{ type := TransactionType.WITHDRAW, amount := -amount }] } := by
  simp [Account.withdraw, not_le.mpr h, not_lt.mpr hc]

theorem buyP_of_nonpos (px : PriceTable) (a : Account) (s : String)
    (q : Int) (h : q ≤ 0) :
    Account.buyP px a s q = Except.error AccErr.valueError := by
  simp [Account.buyP, h]

theorem buyP_unknown (px : PriceTable) (a : Account) (s : String) (q : Int)
    (h : 0 < q) (hs : px s = none) :
    Account.buyP px a s q = Except.error AccErr.invalidSymbol := by
  simp [Account.buyP, get_share_priceP, not_le.mpr h, hs]

theorem buyP_insufficient (px : PriceTable) (a : Account) (s : String)
    (q : Int) (p : ℚ) (h : 0 < q) (hs : px s = some p)
    (hc : a.cash_balance < p * q) :
    Account.buyP px a s q = Except.error AccErr.insufficientFunds := by
  simp [Account.buyP, get_share_priceP, not_le.mpr h, hs, hc]

theorem buyP_ok (px : PriceTable) (a : Account) (s : String) (q : Int)
    (p : ℚ) (h : 0 < q) (hs : px s = some p)
    (hc : p * q ≤ a.cash_balance) :
    Account.buyP px a s q = Except.ok { a with
      cash_balance := a.cash_balance - p * q
      holdings := dset a.holdings s (dgetD a.holdings s 0 + q)
      transactions := a.transactions ++
        [{ type := TransactionType.BUY
           amount := -(p * q)
           symbol := some s
           quantity := some q
           share_price := some p }] } := by
  simp [Account.buyP, get_share_priceP, not_le.mpr h, hs, not_lt.mpr hc]

theorem sellP_of_nonpos (px : PriceTable) (a : Account) (s : String)
    (q : Int) (h : q ≤ 0) :
    Account.sellP px a s q = Except.error AccErr.valueError := by
  simp [Account.sellP, h]

theorem sellP_insufficient (px : PriceTable) (a : Account) (s : String)
    (q : Int) (h : 0 < q) (hq : dgetD a.holdings s 0 < q) :
    Account.sellP px a s q = Except.error AccErr.insufficientShares := by
  simp [Account.sellP, not_le.mpr h, hq]

theorem sellP_unknown (px : PriceTable) (a : Account) (s : String) (q : Int)
    (h : 0 < q) (hq : q ≤ dgetD a.holdings s 0) (hs : px s = none) :
    Account.sellP px a s q = Except.error AccErr.invalidSymbol := by
  simp [Account.sellP, get_share_priceP, not_le.mpr h, not_lt.mpr hq, hs]

theorem sellP_ok (px : PriceTable) (a : Account) (s : String) (q : Int)
    (p : ℚ) (h : 0 < q) (hq : q ≤ dgetD a.holdings s 0)
    (hs : px s = some p) :
    Account.sellP px a s q = Except.ok { a with
      cash_balance := a.cash_balance + p * q
      holdings :=
        let h1 := dset a.holdings s (dgetD a.holdings s 0 - q)
        if dgetD h1 s 0 = 0 then ddel h1 s else h1
      transactions := a.transactions ++
        [{ type := TransactionType.SELL
           amount := p * q
           symbol := some s
           quantity := some q
           share_price := some p }] } := by
  simp [Account.sellP, get_share_priceP, not_le.mpr h, not_lt.mpr hq, hs]

theorem stepP_of_error (px : PriceTable) (a : Account) (o : Op)
    (e : AccErr) (h : Account.applyOpP px a o = Except.error e) :
    Account.stepP px a o = a := by
  simp [Account.stepP, h]

theorem stepP_of_ok (px : PriceTable) (a : Account) (o : Op)
    (b : Account) (h : Account.applyOpP px a o = Except.ok b) :
    Account.stepP px a o = b := by
  simp [Account.stepP, h]

/-- Every price in the fixed table of `get_share_price` is nonnegative. -/
theorem prices_nonneg (s : String) (p : ℚ) (h : prices s = some p) :
    0 ≤ p := by
  unfold prices at h
  split_ifs at h <;> simp at h <;> rw [← h] <;> norm_num

/-- Any one call (successful or rejected) preserves `cash_balance ≥ 0`,
for any price table whose prices are nonnegative. -/
theorem cash_nonneg_stepP (px : PriceTable)
    (hpx : ∀ s p, px s = some p → 0 ≤ p) (a : Account) (o : Op)
    (h : 0 ≤ a.cash_balance) : 0 ≤ (Account.stepP px a o).cash_balance := by
  cases o with
  | deposit amount =>
    by_cases h1 : amount ≤ 0
    · have he := deposit_of_nonpos a amount h1
      simp [Account.stepP, Account.applyOpP, he]
      exact h
    · have ho := deposit_of_pos a amount (not_le.mp h1)
      simp [Account.stepP, Account.applyOpP, ho]
      have h2 : (0 : ℚ) ≤ amount := le_of_lt (not_le.mp h1)
      exact add_nonneg h h2
  | withdraw amount =>
    by_cases h1 : amount ≤ 0
    · have he := withdraw_of_nonpos a amount h1
      simp [Account.stepP, Account.applyOpP, he]
      exact h
    · by_cases h2 : a.cash_balance < amount
      · have he := withdraw_insufficient a amount (not_le.mp h1) h2
        simp [Account.stepP, Account.applyOpP, he]
        exact h
      · have ho := withdraw_ok a amount (not_le.mp h1) (not_lt.mp h2)
        simp [Account.stepP, Account.applyOpP, ho]
        simpa using not_lt.mp h2
  | buy s q =>
    by_cases h1 : q ≤ 0
    · have he := buyP_of_nonpos px a s q h1
      simp [Account.stepP, Account.applyOpP, he]
      exact h
    · cases hs : px s with
      | none =>
        have he := buyP_unknown px a s q (not_le.mp h1) hs
        simp [Account.stepP, Account.applyOpP, he]
        exact h
      | some p =>
        by_cases h2 : a.cash_balance < p * q
        · have he := buyP_insufficient px a s q p (not_le.mp h1) hs h2
          simp [Account.stepP, Account.applyOpP, he]
          exact h
        · have ho := buyP_ok px a s q p (not_le.mp h1) hs (not_lt.mp h2)
          simp [Account.stepP, Account.applyOpP, ho]
          simpa using not_lt.mp h2
  | sell s q =>
    by_cases h1 : q ≤ 0
    · have he := sellP_of_nonpos px a s q h1
      simp [Account.stepP, Account.applyOpP, he]
      exact h
    · by_cases h2 : dgetD a.holdings s 0 < q
      · have he := sellP_insufficient px a s q (not_le.mp h1) h2
        simp [Account.stepP, Account.applyOpP, he]
        exact h
      · cases hs : px s with
        | none =>
          have he := sellP_unknown px a s q (not_le.mp h1) (not_lt.mp h2) hs
          simp [Account.stepP, Account.applyOpP, he]
          exact h
        | some p =>
          have ho := sellP_ok px a s q p (not_le.mp h1) (not_lt.mp h2) hs
          simp [Account.stepP, Account.applyOpP, ho]
          have hp : (0 : ℚ) ≤ p := hpx s p hs
          have hq : (0 : ℚ) ≤ (q : ℚ) := by
            exact_mod_cast le_of_lt (not_le.mp h1)
          exact add_nonneg h (mul_nonneg hp hq)

/-- Running any call sequence preserves `cash_balance ≥ 0`. -/
theorem cash_nonneg_runOpsP (px : PriceTable)
    (hpx : ∀ s p, px s = some p → 0 ≤ p) (os : List Op) (a : Account)
    (h : 0 ≤ a.cash_balance) : 0 ≤ (Account.runOpsP px a os).cash_balance := by
  induction os generalizing a with
  | nil => exact h
  | cons o os ih =>
    exact ih (Account.stepP px a o) (cash_nonneg_stepP px hpx a o h)

/-! ### Inversion lemmas: what a successful call must look like -/

theorem deposit_ok_inv (a b : Account) (amount : ℚ)
    (h : a.deposit amount = Except.ok b) :
    0 < amount ∧ b = { a with
      cash_balance := a.cash_balance + amount
      total_deposits := a.total_deposits + amount
      transactions := a.transactions ++
        [{ type := TransactionType.DEPOSIT, amount := amount }] } := by
  by_cases h1 : amount ≤ 0
  · rw [deposit_of_nonpos a amount h1] at h
    exact absurd h (by simp)
  · rw [deposit_of_pos a amount (not_le.mp h1)] at h
    simp at h
    exact ⟨not_le.mp h1, h.symm⟩

theorem withdraw_ok_inv (a b : Account) (amount : ℚ)
    (h : a.withdraw amount = Except.ok b) :
    0 < amount ∧ amount ≤ a.cash_balance ∧ b = { a with
      cash_balance := a.cash_balance - amount
      transactions := a.transactions ++
        [{ type := TransactionType.WITHDRAW, amount := -amount }] } := by
  by_cases h1 : amount ≤ 0
  · rw [withdraw_of_nonpos a amount h1] at h
    exact absurd h (by simp)
  · by_cases h2 : a.cash_balance < amount
    · rw [withdraw_insufficient a amount (not_le.mp h1) h2] at h
      exact absurd h (by simp)
    · rw [withdraw_ok a amount (not_le.mp h1) (not_lt.mp h2)] at h
      simp at h
      exact ⟨not_le.mp h1, not_lt.mp h2, h.symm⟩

theorem buyP_ok_inv (px : PriceTable) (a b : Account) (s : String) (q : Int)
    (h : Account.buyP px a s q = Except.ok b) :
    ∃ p, 0 < q ∧ px s = some p ∧ p * q ≤ a.cash_balance ∧ b = { a with
      cash_balance := a.cash_balance - p * q
      holdings := dset a.holdings s (dgetD a.holdings s 0 + q)
      transactions := a.transactions ++
        [{ type := TransactionType.BUY
           amount := -(p * q)
           symbol := some s
           quantity := some q
           share_price := some p }] } := by
  by_cases h1 : q ≤ 0
  · rw [buyP_of_nonpos px a s q h1] at h
    exact absurd h (by simp)
  · cases hs : px s with
    | none =>
      rw [buyP_unknown px a s q (not_le.mp h1) hs] at h
      exact absurd h (by simp)
    | some p =>
      by_cases h2 : a.cash_balance < p * q
      · rw [buyP_insufficient px a s q p (not_le.mp h1) hs h2] at h
        exact absurd h (by simp)
      · rw [buyP_ok px a s q p (not_le.mp h1) hs (not_lt.mp h2)] at h
        simp at h
        exact ⟨p, not_le.mp h1, rfl, not_lt.mp h2, h.symm⟩

theorem sellP_ok_inv (px : PriceTable) (a b : Account) (s : String) (q : Int)
    (h : Account.sellP px a s q = Except.ok b) :
    ∃ p, 0 < q ∧ q ≤ dgetD a.holdings s 0 ∧ px s = some p ∧ b = { a with
      cash_balance := a.cash_balance + p * q
      holdings :=
        let h1 := dset a.holdings s (dgetD a.holdings s 0 - q)
        if dgetD h1 s 0 = 0 then ddel h1 s else h1
      transactions := a.transactions ++
        [{ type := TransactionType.SELL
           amount := p * q
           symbol := some s
           quantity := some q
           share_price := some p }] } := by
  by_cases h1 : q ≤ 0
  · rw [sellP_of_nonpos px a s q h1] at h
    exact absurd h (by simp)
  · by_cases h2 : dgetD a.holdings s 0 < q
    · rw [sellP_insufficient px a s q (not_le.mp h1) h2] at h
      exact absurd h (by simp)
    · cases hs : px s with
      | none =>
        rw [sellP_unknown px a s q (not_le.mp h1) (not_lt.mp h2) hs] at h
        exact absurd h (by simp)
      | some p =>
        rw [sellP_ok px a s q p (not_le.mp h1) (not_lt.mp h2) hs] at h
        simp at h
        exact ⟨p, not_le.mp h1, not_lt.mp h2, rfl, h.symm⟩

/-- Each successful call appends exactly one transaction. -/
theorem applyOpP_ok_transactions (px : PriceTable) (a b : Account) (o : Op)
    (h : Account.applyOpP px a o = Except.ok b) :
    ∃ t, b.transactions = a.transactions ++ [t] := by
  cases o with
  | deposit amount =>
    obtain ⟨_, hb⟩ := deposit_ok_inv a b amount h
    exact ⟨_, by rw [hb]⟩
  | withdraw amount =>
    obtain ⟨_, _, hb⟩ := withdraw_ok_inv a b amount h
    exact ⟨_, by rw [hb]⟩
  | buy s q =>
    obtain ⟨p, _, _, _, hb⟩ := buyP_ok_inv px a b s q h
    exact ⟨_, by rw [hb]⟩
  | sell s q =>
    obtain ⟨p, _, _, _, hb⟩ := sellP_ok_inv px a b s q h
    exact ⟨_, by rw [hb]⟩

theorem runOpsP_nil (px : PriceTable) (a : Account) :
    Account.runOpsP px a [] = a := rfl

theorem runOpsP_cons (px : PriceTable) (a : Account) (o : Op) (os : List Op) :
    Account.runOpsP px a (o :: os)
      = Account.runOpsP px (Account.stepP px a o) os := rfl

/-- After any run, the ledger length is the starting length plus the
number of successfully completed calls. -/
theorem transactions_length_runOpsP (px : PriceTable) (os : List Op)
    (a : Account) :
    (Account.runOpsP px a os).transactions.length
      = a.transactions.length + Account.successCountP px a os := by
  induction os generalizing a with
  | nil => simp [runOpsP_nil, Account.successCountP]
  | cons o os ih =>
    rw [runOpsP_cons]
    cases hap : Account.applyOpP px a o with
    | ok b =>
      rw [stepP_of_ok px a o b hap, ih b]
      obtain ⟨t, ht⟩ := applyOpP_ok_transactions px a b o hap
      rw [ht]
      simp [Account.successCountP, hap]
      omega
    | error e =>
      rw [stepP_of_error px a o e hap, ih a]
      simp [Account.successCountP, hap]

/-- A call that is not a deposit never changes `total_deposits`,
whether it succeeds or is rejected. -/
theorem total_deposits_stepP (px : PriceTable) (a : Account) (o : Op)
    (h : ∀ amt, o ≠ Op.deposit amt) :
    (Account.stepP px a o).total_deposits = a.total_deposits := by
  cases o with
  | deposit amount => exact absurd rfl (h amount)
  | withdraw amount =>
    cases hap : Account.applyOpP px a (Op.withdraw amount) with
    | ok b =>
      rw [stepP_of_ok px a _ b hap]
      obtain ⟨_, _, hb⟩ := withdraw_ok_inv a b amount hap
      rw [hb]
    | error e => rw [stepP_of_error px a _ e hap]
  | buy s q =>
    cases hap : Account.applyOpP px a (Op.buy s q) with
    | ok b =>
      rw [stepP_of_ok px a _ b hap]
      obtain ⟨p, _, _, _, hb⟩ := buyP_ok_inv px a b s q hap
      rw [hb]
    | error e => rw [stepP_of_error px a _ e hap]
  | sell s q =>
    cases hap : Account.applyOpP px a (Op.sell s q) with
    | ok b =>
      rw [stepP_of_ok px a _ b hap]
      obtain ⟨p, _, _, _, hb⟩ := sellP_ok_inv px a b s q hap
      rw [hb]
    | error e => rw [stepP_of_error px a _ e hap]

/-- No single call ever decreases `total_deposits`. -/
theorem total_deposits_le_stepP (px : PriceTable) (a : Account) (o : Op) :
    a.total_deposits ≤ (Account.stepP px a o).total_deposits := by
  cases o with
  | deposit amount =>
    cases hap : Account.applyOpP px a (Op.deposit amount) with
    | ok b =>
      rw [stepP_of_ok px a _ b hap]
      obtain ⟨hpos, hb⟩ := deposit_ok_inv a b amount hap
      rw [hb]
      simpa using le_of_lt hpos
    | error e => rw [stepP_of_error px a _ e hap]
  | withdraw amount =>
    rw [total_deposits_stepP px a _ (by intro amt; simp)]
  | buy s q =>
    rw [total_deposits_stepP px a _ (by intro amt; simp)]
  | sell s q =>
    rw [total_deposits_stepP px a _ (by intro amt; simp)]

/-- `total_deposits` is monotonically non-decreasing over any run. -/
theorem total_deposits_le_runOpsP (px : PriceTable) (os : List Op)
    (a : Account) :
    a.total_deposits ≤ (Account.runOpsP px a os).total_deposits := by
  induction os generalizing a with
  | nil => exact le_refl _
  | cons o os ih =>
    rw [runOpsP_cons]
    exact le_trans (total_deposits_le_stepP px a o) (ih (Account.stepP px a o))

/-- Any one call preserves the holdings dictionary invariant: distinct
keys, strictly positive quantities. -/
theorem holdingsInv_stepP (px : PriceTable) (a : Account) (o : Op)
    (h : HoldingsInv a.holdings) :
    HoldingsInv (Account.stepP px a o).holdings := by
  cases o with
  | deposit amount =>
    cases hap : Account.applyOpP px a (Op.deposit amount) with
    | ok b =>
      rw [stepP_of_ok px a _ b hap]
      obtain ⟨_, hb⟩ := deposit_ok_inv a b amount hap
      rw [hb]
      exact h
    | error e => rw [stepP_of_error px a _ e hap]; exact h
  | withdraw amount =>
    cases hap : Account.applyOpP px a (Op.withdraw amount) with
    | ok b =>
      rw [stepP_of_ok px a _ b hap]
      obtain ⟨_, _, hb⟩ := withdraw_ok_inv a b amount hap
      rw [hb]
      exact h
    | error e => rw [stepP_of_error px a _ e hap]; exact h
  | buy s q =>
    cases hap : Account.applyOpP px a (Op.buy s q) with
    | ok b =>
      rw [stepP_of_ok px a _ b hap]
      obtain ⟨p, hq, hs, hc, hb⟩ := buyP_ok_inv px a b s q hap
      rw [hb]
      refine ⟨nodup_dkeys_dset a.holdings s _ h.1, ?_⟩
      intro p2 hp2
      rcases mem_dset a.holdings s _ p2 hp2 with hin | heq
      · exact h.2 p2 hin
      · rw [heq]
        cases hget : dget a.holdings s with
        | none => simpa [dgetD, hget] using hq
        | some v =>
          have hv : 0 < v := h.2 (s, v) (mem_of_dget a.holdings s v hget)
          simp only [dgetD, hget, Option.getD_some]
          exact add_pos hv hq
    | error e => rw [stepP_of_error px a _ e hap]; exact h
  | sell s q =>
    cases hap : Account.applyOpP px a (Op.sell s q) with
    | ok b =>
      rw [stepP_of_ok px a _ b hap]
      obtain ⟨p, hq, hqle, hs, hb⟩ := sellP_ok_inv px a b s q hap
      rw [hb]
      simp only []
      have hnd1 : (dkeys (dset a.holdings s (dgetD a.holdings s 0 - q))).Nodup :=
        nodup_dkeys_dset a.holdings s _ h.1
      have hget1 : dgetD (dset a.holdings s (dgetD a.holdings s 0 - q)) s 0
          = dgetD a.holdings s 0 - q := by
        simp [dgetD, dget_dset_self]
      by_cases hz : dgetD a.holdings s 0 - q = 0
      · rw [if_pos (by rw [hget1]; exact hz)]
        refine ⟨nodup_dkeys_ddel _ s hnd1, ?_⟩
        intro p2 hp2
        obtain ⟨hin1, hne⟩ := mem_ddel _ s hnd1 p2 hp2
        rcases mem_dset a.holdings s _ p2 hin1 with hin | heq
        · exact h.2 p2 hin
        · exact absurd (by rw [heq]) hne
      · rw [if_neg (by rw [hget1]; exact hz)]
        refine ⟨hnd1, ?_⟩
        intro p2 hp2
        rcases mem_dset a.holdings s _ p2 hp2 with hin | heq
        · exact h.2 p2 hin
        · rw [heq]
          have : (0 : Int) ≤ dgetD a.holdings s 0 - q := by omega
          omega
    | error e => rw [stepP_of_error px a _ e hap]; exact h

/-- The holdings invariant holds after any run from a state where it holds. -/
theorem holdingsInv_runOpsP (px : PriceTable) (os : List Op) (a : Account)
    (h : HoldingsInv a.holdings) :
    HoldingsInv (Account.runOpsP px a os).holdings := by
  induction os generalizing a with
  | nil => exact h
  | cons o os ih =>
    rw [runOpsP_cons]
    exact ih (Account.stepP px a o) (holdingsInv_stepP px a o h)

theorem dget_ddel_self (d : List (String × Int)) (k : String)
    (h : (dkeys d).Nodup) : dget (ddel d k) k = none := by
  rw [dget_eq_none_iff]
  intro hc
  simp only [dkeys, List.mem_map] at hc
  rcases hc with ⟨p2, hp2, hfst⟩
  exact (mem_ddel d k h p2 hp2).2 hfst

/-- The valuation loop of `get_portfolio_value` as a sum over holdings. -/
theorem portfolio_foldl (px : PriceTable) (l : List (String × Int)) (acc : ℚ) :
    l.foldl (fun acc2 sq =>
      match get_share_priceP px sq.1 with
      | Except.ok price => acc2 + price * sq.2
      | Except.error _ => acc2) acc
    = acc + (l.map (fun sq =>
        match px sq.1 with
        | some p => p * (sq.2 : ℚ)
        | none => 0)).sum := by
  induction l generalizing acc with
  | nil => simp
  | cons hd tl ih =>
    rw [List.foldl_cons, List.map_cons, List.sum_cons, ih]
    cases hs : px hd.1 with
    | none => simp [get_share_priceP, hs]
    | some p =>
      simp [get_share_priceP, hs]
      ring

/-! ### Claim theorems -/

/-- C2: for every reachable account state — any sequence of deposit,
withdraw, buy, sell calls applied to a fresh account, a rejected call
having no effect — `cash_balance` is nonnegative after every operation
(every prefix of a call sequence is itself a call sequence). -/
theorem claim_C2_cash_balance_nonneg (id name : String) (os : List Op) :
    0 ≤ (Account.runOps (Account.init id name) os).cash_balance :=
  cash_nonneg_runOpsP prices prices_nonneg os (Account.init id name)
    (le_refl 0)

/-- C6: `get_portfolio_value` returns `cash_balance` plus the sum over the
current holdings of `price(symbol) * quantity`, where a holding whose
symbol the oracle cannot price contributes zero instead of propagating the
failure. The function is total (it never raises: the `InvalidSymbolError`
branch is caught inside the loop) and, being a pure function of the
account value, modifies no account state. Stated over an arbitrary price
table `px`; the source's fixed oracle is the instance `px = prices`,
for which `Account.get_portfolio_value a = Account.get_portfolio_valueP
prices a` holds by definition. -/
theorem claim_C6_portfolio_value (px : PriceTable) (a : Account) :
    Account.get_portfolio_valueP px a
      = a.cash_balance + (a.holdings.map (fun sq =>
          match px sq.1 with
          | some p => p * (sq.2 : ℚ)
          | none => 0)).sum := by
  rw [Account.get_portfolio_valueP, portfolio_foldl]
  rw [zero_add]

/-- The spec scenario state: deposit 2000 then buy 10 AAPL at the oracle
price 150, leaving cash 500 and holdings AAPL ↦ 10. -/
theorem scenario_deposit_buy :
    Account.runOps (Account.init "acct" "user")
      [Op.deposit 2000, Op.buy "AAPL" 10]
      = { account_id := "acct", user_name := "user",
          cash_balance := 500, total_deposits := 2000,
          holdings := [("AAPL", 10)],
          transactions := [
            { type := TransactionType.DEPOSIT, amount := 2000 },
            { type := TransactionType.BUY, amount := -1500,
              symbol := some "AAPL", quantity := some 10,
              share_price := some 150 }] } := by
  have h1 : Account.applyOpP prices (Account.init "acct" "user")
      (Op.deposit 2000)
      = Except.ok
        { account_id := "acct", user_name := "user",
          cash_balance := 2000, total_deposits := 2000, holdings := [],
          transactions :=
            [{ type := TransactionType.DEPOSIT, amount := 2000 }] } := by
    show Account.deposit _ 2000 = _
    rw [deposit_of_pos _ 2000 (by norm_num)]
    norm_num [Account.init]
  have h2 : Account.applyOpP prices
      { account_id := "acct", user_name := "user",
        cash_balance := 2000, total_deposits := 2000, holdings := [],
        transactions :=
          [{ type := TransactionType.DEPOSIT, amount := 2000 }] }
      (Op.buy "AAPL" 10)
      = Except.ok
        { account_id := "acct", user_name := "user",
          cash_balance := 500, total_deposits := 2000,
          holdings := [("AAPL", 10)],
          transactions := [
            { type := TransactionType.DEPOSIT, amount := 2000 },
            { type := TransactionType.BUY, amount := -1500,
              symbol := some "AAPL", quantity := some 10,
              share_price := some 150 }] } := by
    show Account.buyP prices _ "AAPL" 10 = _
    rw [buyP_ok prices _ "AAPL" 10 150 (by norm_num) (by decide)
      (by push_cast; norm_num)]
    norm_num [dset, dgetD, dget]
  rw [Account.runOps, runOpsP_cons, runOpsP_cons, runOpsP_nil,
    stepP_of_ok _ _ _ _ h1, stepP_of_ok _ _ _ _ h2]

/-- C7: `get_profit_loss` returns exactly `get_portfolio_value` minus
`total_deposits` (for every price table, hence for the source's fixed
oracle), and the concrete scenario: after depositing 2000 and buying
10 AAPL at the oracle price 150, under a table pricing AAPL at 160 the
portfolio value is 2100 and the profit/loss 100, and under a table
pricing AAPL at 140 they are 1900 and -100. -/
theorem claim_C7_profit_loss :
    (∀ (px : PriceTable) (a : Account),
      Account.get_profit_lossP px a
        = Account.get_portfolio_valueP px a - a.total_deposits)
    ∧ (Account.get_profit_loss
        = fun a => Account.get_portfolio_value a - a.total_deposits)
    ∧ (Account.get_portfolio_valueP (fun s => if s = "AAPL" then some 160 else none)
        (Account.runOps (Account.init "acct" "user")
          [Op.deposit 2000, Op.buy "AAPL" 10]) = 2100)
    ∧ (Account.get_profit_lossP (fun s => if s = "AAPL" then some 160 else none)
        (Account.runOps (Account.init "acct" "user")
          [Op.deposit 2000, Op.buy "AAPL" 10]) = 100)
    ∧ (Account.get_portfolio_valueP (fun s => if s = "AAPL" then some 140 else none)
        (Account.runOps (Account.init "acct" "user")
          [Op.deposit 2000, Op.buy "AAPL" 10]) = 1900)
    ∧ (Account.get_profit_lossP (fun s => if s = "AAPL" then some 140 else none)
        (Account.runOps (Account.init "acct" "user")
          [Op.deposit 2000, Op.buy "AAPL" 10]) = -100) := by
  refine ⟨fun px a => rfl, rfl, ?_, ?_, ?_, ?_⟩ <;>
    rw [scenario_deposit_buy] <;>
    norm_num [Account.get_profit_lossP, Account.get_portfolio_valueP,
      get_share_priceP, List.foldl_cons, List.foldl_nil]

/-- C1: a rejected call (non-positive amount or quantity, insufficient
cash, insufficient shares, unknown symbol) raises the corresponding error
and has no effect: the caller-observed state `stepP` is the unchanged
account, so `cash_balance`, `total_deposits`, `holdings` and
`transactions` are all unchanged and no transaction is appended;
consequently the ledger length of an account built from a fresh
`Account.init` always equals the number of successfully completed
mutating calls. -/
theorem claim_C1_rejected_calls_atomic :
    (∀ (px : PriceTable) (a : Account) (o : Op) (e : AccErr),
      Account.applyOpP px a o = Except.error e → Account.stepP px a o = a)
    ∧ (∀ (a : Account) (amount : ℚ), amount ≤ 0 →
        a.deposit amount = Except.error AccErr.valueError)
    ∧ (∀ (a : Account) (amount : ℚ), amount ≤ 0 →
        a.withdraw amount = Except.error AccErr.valueError)
    ∧ (∀ (a : Account) (amount : ℚ), 0 < amount →
        a.cash_balance < amount →
        a.withdraw amount = Except.error AccErr.insufficientFunds)
    ∧ (∀ (a : Account) (s : String) (q : Int), q ≤ 0 →
        a.buy s q = Except.error AccErr.valueError)
    ∧ (∀ (a : Account) (s : String) (q : Int), 0 < q → prices s = none →
        a.buy s q = Except.error AccErr.invalidSymbol)
    ∧ (∀ (a : Account) (s : String) (q : Int) (p : ℚ), 0 < q →
        prices s = some p → a.cash_balance < p * q →
        a.buy s q = Except.error AccErr.insufficientFunds)
    ∧ (∀ (a : Account) (s : String) (q : Int), q ≤ 0 →
        a.sell s q = Except.error AccErr.valueError)
    ∧ (∀ (a : Account) (s : String) (q : Int), 0 < q →
        dgetD a.holdings s 0 < q →
        a.sell s q = Except.error AccErr.insufficientShares)
    ∧ (∀ (a : Account) (s : String) (q : Int), 0 < q →
        q ≤ dgetD a.holdings s 0 → prices s = none →
        a.sell s q = Except.error AccErr.invalidSymbol)
    ∧ (∀ (id name : String) (os : List Op),
        (Account.runOps (Account.init id name) os).transactions.length
          = Account.successCountP prices (Account.init id name) os) := by
  refine ⟨fun px a o e h => stepP_of_error px a o e h,
    fun a amount h => deposit_of_nonpos a amount h,
    fun a amount h => withdraw_of_nonpos a amount h,
    fun a amount h1 h2 => withdraw_insufficient a amount h1 h2,
    fun a s q h => buyP_of_nonpos prices a s q h,
    fun a s q h hs => buyP_unknown prices a s q h hs,
    fun a s q p h hs hc => buyP_insufficient prices a s q p h hs hc,
    fun a s q h => sellP_of_nonpos prices a s q h,
    fun a s q h hq => sellP_insufficient prices a s q h hq,
    fun a s q h hge hs => sellP_unknown prices a s q h hge hs,
    fun id name os => ?_⟩
  rw [Account.runOps, transactions_length_runOpsP]
  simp [Account.init]

theorem claim_C1_rejected_calls_atomic_witness :
    Account.stepP prices (Account.init "A" "U") (Op.withdraw 5)
        = Account.init "A" "U"
    ∧ (Account.init "A" "U").deposit (-1) = Except.error AccErr.valueError
    ∧ (Account.init "A" "U").withdraw 0 = Except.error AccErr.valueError
    ∧ (Account.init "A" "U").withdraw 5
        = Except.error AccErr.insufficientFunds
    ∧ (Account.init "A" "U").buy "AAPL" 0 = Except.error AccErr.valueError
    ∧ (Account.init "A" "U").buy "MSFT" 1
        = Except.error AccErr.invalidSymbol
    ∧ (Account.init "A" "U").buy "AAPL" 1
        = Except.error AccErr.insufficientFunds
    ∧ (Account.init "A" "U").sell "AAPL" (-3)
        = Except.error AccErr.valueError
    ∧ (Account.init "A" "U").sell "AAPL" 1
        = Except.error AccErr.insufficientShares
    ∧ Account.sell
        { account_id := "A", user_name := "U", cash_balance := 0,
          total_deposits := 0, holdings := [("XYZ", 5)],
          transactions := [] } "XYZ" 2
        = Except.error AccErr.invalidSymbol
    ∧ (Account.runOps (Account.init "A" "U")
        [Op.deposit 100, Op.withdraw 500]).transactions.length
        = Account.successCountP prices (Account.init "A" "U")
            [Op.deposit 100, Op.withdraw 500] := by
  obtain ⟨h1, h2, h3, h4, h5, h6, h7, h8, h9, h9b, h10⟩ :=
    claim_C1_rejected_calls_atomic
  refine ⟨?_, h2 _ _ (by norm_num), h3 _ _ (by norm_num),
    h4 _ _ (by norm_num) (by norm_num [Account.init]),
    h5 _ _ _ (by norm_num), h6 _ _ _ (by norm_num) (by decide),
    h7 _ _ _ 150 (by norm_num) (by norm_num [prices])
      (by norm_num [Account.init]),
    h8 _ _ _ (by norm_num), h9 _ _ _ (by norm_num) (by decide),
    h9b _ "XYZ" 2 (by norm_num) (by decide) (by decide),
    h10 "A" "U" _⟩
  apply h1 prices _ _ AccErr.insufficientFunds
  show Account.withdraw _ 5 = _
  exact withdraw_insufficient _ 5 (by norm_num) (by norm_num [Account.init])

/-- C3: buying `q > 0` shares of a symbol the oracle prices at `p` with
`cash_balance ≥ p*q` reduces cash by exactly `p*q`, sets
`holdings[symbol]` to its old value (0 if absent, so the entry is created)
plus `q`, leaves every other symbol and `total_deposits` unchanged, and
appends a BUY transaction with `amount = -(p*q)`, the quantity and
`share_price = p`; with `cash_balance < p*q` it fails with
`InsufficientFundsError`, and with an unknown symbol it propagates
`InvalidSymbolError` (the spec's UnknownSymbolError), in both cases with
no state change (`stepP` is the identity). -/
theorem claim_C3_buy_effects :
    (∀ (a : Account) (s : String) (q : Int) (p : ℚ),
      prices s = some p → 0 < q → p * q ≤ a.cash_balance →
      ∃ b, a.buy s q = Except.ok b
        ∧ b.cash_balance = a.cash_balance - p * q
        ∧ dget b.holdings s = some (dgetD a.holdings s 0 + q)
        ∧ (∀ s2, s2 ≠ s → dget b.holdings s2 = dget a.holdings s2)
        ∧ b.total_deposits = a.total_deposits
        ∧ b.transactions = a.transactions ++
            [{ type := TransactionType.BUY, amount := -(p * q),
               symbol := some s, quantity := some q,
               share_price := some p }])
    ∧ (∀ (a : Account) (s : String) (q : Int) (p : ℚ),
        prices s = some p → 0 < q → a.cash_balance < p * q →
        a.buy s q = Except.error AccErr.insufficientFunds
        ∧ Account.stepP prices a (Op.buy s q) = a)
    ∧ (∀ (a : Account) (s : String) (q : Int),
        prices s = none → 0 < q →
        a.buy s q = Except.error AccErr.invalidSymbol
        ∧ Account.stepP prices a (Op.buy s q) = a) := by
  refine ⟨?_, ?_, ?_⟩
  · intro a s q p hs hq hc
    refine ⟨_, buyP_ok prices a s q p hq hs hc, rfl, ?_, ?_, rfl, rfl⟩
    · exact dget_dset_self a.holdings s _
    · intro s2 hne
      exact dget_dset_ne a.holdings s s2 _ hne
  · intro a s q p hs hq hc
    have he := buyP_insufficient prices a s q p hq hs hc
    exact ⟨he, stepP_of_error prices a _ AccErr.insufficientFunds he⟩
  · intro a s q hs hq
    have he := buyP_unknown prices a s q hq hs
    exact ⟨he, stepP_of_error prices a _ AccErr.invalidSymbol he⟩

theorem claim_C3_buy_effects_witness :
    (∃ b, Account.buy
        { account_id := "A", user_name := "U", cash_balance := 1000,
          total_deposits := 1000, holdings := [],
          transactions := [] } "AAPL" 2 = Except.ok b
      ∧ b.cash_balance = (1000 : ℚ) - 150 * 2
      ∧ dget b.holdings "AAPL" = some (dgetD [] "AAPL" 0 + 2)
      ∧ (∀ s2, s2 ≠ "AAPL" → dget b.holdings s2 = dget [] s2)
      ∧ b.total_deposits = (1000 : ℚ)
      ∧ b.transactions = [] ++
          [{ type := TransactionType.BUY, amount := -((150 : ℚ) * 2),
             symbol := some "AAPL", quantity := some 2,
             share_price := some 150 }])
    ∧ Account.buy
        { account_id := "A", user_name := "U", cash_balance := 10,
          total_deposits := 10, holdings := [],
          transactions := [] } "AAPL" 2
        = Except.error AccErr.insufficientFunds
    ∧ Account.buy
        { account_id := "A", user_name := "U", cash_balance := 1000,
          total_deposits := 1000, holdings := [],
          transactions := [] } "MSFT" 2
        = Except.error AccErr.invalidSymbol := by
  refine ⟨?_, ?_, ?_⟩
  · have h := claim_C3_buy_effects.1
      { account_id := "A", user_name := "U", cash_balance := 1000,
        total_deposits := 1000, holdings := [], transactions := [] }
      "AAPL" 2 150 (by norm_num [prices]) (by norm_num)
      (by push_cast; norm_num)
    simpa using h
  · exact (claim_C3_buy_effects.2.1
      { account_id := "A", user_name := "U", cash_balance := 10,
        total_deposits := 10, holdings := [], transactions := [] }
      "AAPL" 2 150 (by norm_num [prices]) (by norm_num)
      (by push_cast; norm_num)).1
  · exact (claim_C3_buy_effects.2.2
      { account_id := "A", user_name := "U", cash_balance := 1000,
        total_deposits := 1000, holdings := [], transactions := [] }
      "MSFT" 2 (by decide) (by norm_num)).1

/-- C4: for `sell(symbol, quantity)` with `quantity > 0`, the check
`holdings.get(symbol, 0) ≥ quantity` precedes any price lookup: whenever
the held quantity (0 for an unheld symbol) is below the request the call
fails with `InsufficientSharesError` and changes nothing — the statement
puts no constraint on `prices symbol`, and a conjunct instantiates it at
an unknown symbol explicitly; on success, cash grows by `price*quantity`,
`holdings[symbol]` shrinks by `quantity`, and a SELL transaction with
`amount = +price*quantity` is appended. -/
theorem claim_C4_sell_shares_checked_first :
    (∀ (a : Account) (s : String) (q : Int), 0 < q →
      dgetD a.holdings s 0 < q →
      a.sell s q = Except.error AccErr.insufficientShares
      ∧ Account.stepP prices a (Op.sell s q) = a)
    ∧ (∀ (a : Account) (s : String) (q : Int), 0 < q →
        dgetD a.holdings s 0 < q → prices s = none →
        a.sell s q = Except.error AccErr.insufficientShares)
    ∧ (∀ (a : Account) (s : String) (q : Int) (p : ℚ), 0 < q →
        q ≤ dgetD a.holdings s 0 → prices s = some p →
        (dkeys a.holdings).Nodup →
        ∃ b, a.sell s q = Except.ok b
          ∧ b.cash_balance = a.cash_balance + p * q
          ∧ dgetD b.holdings s 0 = dgetD a.holdings s 0 - q
          ∧ b.transactions = a.transactions ++
              [{ type := TransactionType.SELL, amount := p * q,
                 symbol := some s, quantity := some q,
                 share_price := some p }]) := by
  refine ⟨?_, ?_, ?_⟩
  · intro a s q hq hlt
    have he := sellP_insufficient prices a s q hq hlt
    exact ⟨he, stepP_of_error prices a _ AccErr.insufficientShares he⟩
  · intro a s q hq hlt _
    exact sellP_insufficient prices a s q hq hlt
  · intro a s q p hq hge hs hnd
    refine ⟨_, sellP_ok prices a s q p hq hge hs, rfl, ?_, rfl⟩
    have hcur : dgetD (dset a.holdings s (dgetD a.holdings s 0 - q)) s 0
        = dgetD a.holdings s 0 - q := by
      rw [dgetD, dget_dset_self]
      rfl
    show dgetD
        (if dgetD (dset a.holdings s (dgetD a.holdings s 0 - q)) s 0 = 0
          then ddel (dset a.holdings s (dgetD a.holdings s 0 - q)) s
          else dset a.holdings s (dgetD a.holdings s 0 - q)) s 0
      = dgetD a.holdings s 0 - q
    rw [hcur]
    by_cases hz : dgetD a.holdings s 0 - q = 0
    · rw [if_pos hz, hz]
      rw [dgetD, dget_ddel_self _ s (nodup_dkeys_dset a.holdings s _ hnd)]
      rfl
    · rw [if_neg hz]
      exact hcur

theorem claim_C4_sell_shares_checked_first_witness :
    Account.sell
      { account_id := "A", user_name := "U", cash_balance := 0,
        total_deposits := 0, holdings := [], transactions := [] }
      "MSFT" 1 = Except.error AccErr.insufficientShares
    ∧ Account.sell
      { account_id := "A", user_name := "U", cash_balance := 0,
        total_deposits := 0, holdings := [("AAPL", 5)],
        transactions := [] }
      "AAPL" 7 = Except.error AccErr.insufficientShares
    ∧ (∃ b, Account.sell
        { account_id := "A", user_name := "U", cash_balance := 0,
          total_deposits := 0, holdings := [("AAPL", 5)],
          transactions := [] }
        "AAPL" 2 = Except.ok b
      ∧ b.cash_balance = (0 : ℚ) + 150 * 2
      ∧ dgetD b.holdings "AAPL" 0 = dgetD [("AAPL", 5)] "AAPL" 0 - 2
      ∧ b.transactions = [] ++
          [{ type := TransactionType.SELL, amount := (150 : ℚ) * 2,
             symbol := some "AAPL", quantity := some 2,
             share_price := some 150 }]) := by
  refine ⟨?_, ?_, ?_⟩
  · exact claim_C4_sell_shares_checked_first.2.1
      { account_id := "A", user_name := "U", cash_balance := 0,
        total_deposits := 0, holdings := [], transactions := [] }
      "MSFT" 1 (by norm_num) (by decide) (by decide)
  · exact (claim_C4_sell_shares_checked_first.1
      { account_id := "A", user_name := "U", cash_balance := 0,
        total_deposits := 0, holdings := [("AAPL", 5)],
        transactions := [] }
      "AAPL" 7 (by norm_num) (by decide)).1
  · have h := claim_C4_sell_shares_checked_first.2.2
      { account_id := "A", user_name := "U", cash_balance := 0,
        total_deposits := 0, holdings := [("AAPL", 5)],
        transactions := [] }
      "AAPL" 2 150 (by norm_num) (by decide) (by norm_num [prices])
      (by decide)
    simpa using h

/-- C5: in every reachable account state every symbol present in
`holdings` maps to a strictly positive quantity (so no zero-quantity
entry is ever stored), and selling all held shares of a symbol removes
the symbol's entry from `holdings` entirely. -/
theorem claim_C5_holdings_positive :
    (∀ (id name : String) (os : List Op),
      ∀ p2 ∈ (Account.runOps (Account.init id name) os).holdings,
        0 < p2.2)
    ∧ (∀ (a : Account) (s : String) (q : Int) (b : Account),
        (dkeys a.holdings).Nodup → dget a.holdings s = some q →
        a.sell s q = Except.ok b → dget b.holdings s = none) := by
  constructor
  · intro id name os
    have h := holdingsInv_runOpsP prices os (Account.init id name)
      ⟨by simp [Account.init, dkeys], by simp [Account.init]⟩
    exact h.2
  · intro a s q b hnd hget hsell
    obtain ⟨p, hq, hge, hs, hb⟩ := sellP_ok_inv prices a b s q hsell
    rw [hb]
    have hcurq : dgetD a.holdings s 0 = q := by
      rw [dgetD, hget]
      rfl
    show dget
        (if dgetD (dset a.holdings s (dgetD a.holdings s 0 - q)) s 0 = 0
          then ddel (dset a.holdings s (dgetD a.holdings s 0 - q)) s
          else dset a.holdings s (dgetD a.holdings s 0 - q)) s = none
    have hcur : dgetD (dset a.holdings s (dgetD a.holdings s 0 - q)) s 0
        = dgetD a.holdings s 0 - q := by
      rw [dgetD, dget_dset_self]
      rfl
    rw [hcur, hcurq, if_pos (sub_self q)]
    exact dget_ddel_self _ s (nodup_dkeys_dset a.holdings s _ hnd)

theorem claim_C5_holdings_positive_witness :
    (0 : Int) < 10
    ∧ dget
        ({ account_id := "A", user_name := "U", cash_balance := 450,
           total_deposits := 0, holdings := [],
           transactions :=
             [{ type := TransactionType.SELL, amount := 450,
                symbol := some "AAPL", quantity := some 3,
                share_price := some 150 }] } : Account).holdings
        "AAPL" = none := by
  constructor
  · exact claim_C5_holdings_positive.1 "acct" "user"
      [Op.deposit 2000, Op.buy "AAPL" 10] ("AAPL", 10)
      (by rw [scenario_deposit_buy]; decide)
  · have hsell : Account.sell
        { account_id := "A", user_name := "U", cash_balance := 0,
          total_deposits := 0, holdings := [("AAPL", 3)],
          transactions := [] }
        "AAPL" 3 = Except.ok
        { account_id := "A", user_name := "U", cash_balance := 450,
          total_deposits := 0, holdings := [],
          transactions :=
            [{ type := TransactionType.SELL, amount := 450,
               symbol := some "AAPL", quantity := some 3,
               share_price := some 150 }] } := by
      show Account.sellP prices _ "AAPL" 3 = _
      rw [sellP_ok prices _ "AAPL" 3 150 (by norm_num) (by decide)
        (by norm_num [prices])]
      norm_num [dset, dget, dgetD, ddel]
    exact claim_C5_holdings_positive.2
      { account_id := "A", user_name := "U", cash_balance := 0,
        total_deposits := 0, holdings := [("AAPL", 3)],
        transactions := [] }
      "AAPL" 3 _ (by decide) (by decide) hsell

/-- C8: a successful deposit of `d > 0` increases `cash_balance` and
`total_deposits` by exactly `d` and appends a DEPOSIT transaction with
`amount = d`; every withdraw, buy and sell call — successful or rejected,
over any price table — leaves `total_deposits` unchanged; hence
`total_deposits` is monotonically non-decreasing over any call
sequence. -/
theorem claim_C8_total_deposits_only_deposits :
    (∀ (a : Account) (d : ℚ), 0 < d →
      a.deposit d = Except.ok { a with
        cash_balance := a.cash_balance + d
        total_deposits := a.total_deposits + d
        transactions := a.transactions ++
          [{ type := TransactionType.DEPOSIT, amount := d }] })
    ∧ (∀ (px : PriceTable) (a : Account) (amount : ℚ),
        (Account.stepP px a (Op.withdraw amount)).total_deposits
          = a.total_deposits)
    ∧ (∀ (px : PriceTable) (a : Account) (s : String) (q : Int),
        (Account.stepP px a (Op.buy s q)).total_deposits
          = a.total_deposits)
    ∧ (∀ (px : PriceTable) (a : Account) (s : String) (q : Int),
        (Account.stepP px a (Op.sell s q)).total_deposits
          = a.total_deposits)
    ∧ (∀ (a : Account) (os : List Op),
        a.total_deposits ≤ (Account.runOps a os).total_deposits) :=
  ⟨fun a d h => deposit_of_pos a d h,
    fun px a amount => total_deposits_stepP px a _ (by intro amt; simp),
    fun px a s q => total_deposits_stepP px a _ (by intro amt; simp),
    fun px a s q => total_deposits_stepP px a _ (by intro amt; simp),
    fun a os => total_deposits_le_runOpsP prices os a⟩

theorem claim_C8_total_deposits_only_deposits_witness :
    (Account.init "A" "U").deposit 7 = Except.ok
      { Account.init "A" "U" with
        cash_balance := (Account.init "A" "U").cash_balance + 7
        total_deposits := (Account.init "A" "U").total_deposits + 7
        transactions := (Account.init "A" "U").transactions ++
          [{ type := TransactionType.DEPOSIT, amount := 7 }] } :=
  claim_C8_total_deposits_only_deposits.1 (Account.init "A" "U") 7
    (by norm_num)

/-- C10: from any account state satisfying the holdings-dictionary
invariant (distinct keys, positive quantities — true of every reachable
state), if `buy s q` succeeds (oracle price `p`, `q > 0`,
`p*q ≤ cash_balance`), then immediately calling `sell s q` succeeds and
restores `cash_balance`, `holdings` and `total_deposits` exactly to their
values before the buy (the fixed oracle prices the sale at the purchase
price); only the transaction list differs, by the two appended records. -/
theorem claim_C10_buy_sell_roundtrip (a : Account) (s : String) (q : Int)
    (p : ℚ) (hinv : HoldingsInv a.holdings) (hs : prices s = some p)
    (hq : 0 < q) (hc : p * q ≤ a.cash_balance) :
    ∃ b c, a.buy s q = Except.ok b ∧ b.sell s q = Except.ok c
      ∧ c.cash_balance = a.cash_balance
      ∧ c.holdings = a.holdings
      ∧ c.total_deposits = a.total_deposits
      ∧ c.transactions = a.transactions ++
          [{ type := TransactionType.BUY, amount := -(p * q),
             symbol := some s, quantity := some q,
             share_price := some p },
           { type := TransactionType.SELL, amount := p * q,
             symbol := some s, quantity := some q,
             share_price := some p }] := by
  have hb := buyP_ok prices a s q p hq hs hc
  have hcurb : dgetD (dset a.holdings s (dgetD a.holdings s 0 + q)) s 0
      = dgetD a.holdings s 0 + q := by
    rw [dgetD, dget_dset_self]
    rfl
  have hold0 : 0 ≤ dgetD a.holdings s 0 := by
    cases hget : dget a.holdings s with
    | none => simp [dgetD, hget]
    | some v =>
      have hv : (0 : Int) < v :=
        hinv.2 (s, v) (mem_of_dget a.holdings s v hget)
      simp only [dgetD, hget, Option.getD_some]
      exact le_of_lt hv
  have hq2 : q ≤ dgetD (dset a.holdings s (dgetD a.holdings s 0 + q)) s 0 := by
    rw [hcurb]
    omega
  have hsell := sellP_ok prices
    { a with
      cash_balance := a.cash_balance - p * q
      holdings := dset a.holdings s (dgetD a.holdings s 0 + q)
      transactions := a.transactions ++
        [{ type := TransactionType.BUY, amount := -(p * q),
           symbol := some s, quantity := some q,
           share_price := some p }] } s q p hq hq2 hs
  refine ⟨_, _, hb, hsell, ?_, ?_, rfl, ?_⟩
  · show a.cash_balance - p * q + p * q = a.cash_balance
    ring
  · show (if dgetD (dset (dset a.holdings s (dgetD a.holdings s 0 + q)) s
          (dgetD (dset a.holdings s (dgetD a.holdings s 0 + q)) s 0 - q))
            s 0 = 0
        then ddel (dset (dset a.holdings s (dgetD a.holdings s 0 + q)) s
          (dgetD (dset a.holdings s (dgetD a.holdings s 0 + q)) s 0 - q)) s
        else dset (dset a.holdings s (dgetD a.holdings s 0 + q)) s
          (dgetD (dset a.holdings s (dgetD a.holdings s 0 + q)) s 0 - q))
      = a.holdings
    rw [hcurb, dset_dset]
    have hsub : dgetD a.holdings s 0 + q - q = dgetD a.holdings s 0 := by
      omega
    rw [hsub]
    have hcur2 : dgetD (dset a.holdings s (dgetD a.holdings s 0)) s 0
        = dgetD a.holdings s 0 := by
      rw [dgetD, dget_dset_self]
      rfl
    rw [hcur2]
    cases hget : dget a.holdings s with
    | none =>
      have h0 : dgetD a.holdings s 0 = 0 := by
        rw [dgetD, hget]
        rfl
      rw [h0, if_pos rfl]
      exact ddel_dset_of_not_mem a.holdings s 0 hget
    | some v =>
      have h0 : dgetD a.holdings s 0 = v := by
        rw [dgetD, hget]
        rfl
      have hvpos : (0 : Int) < v :=
        hinv.2 (s, v) (mem_of_dget a.holdings s v hget)
      rw [h0, if_neg (by omega)]
      exact dset_dget_self a.holdings s v hget
  · show (a.transactions ++
        [{ type := TransactionType.BUY, amount := -(p * q),
           symbol := some s, quantity := some q,
           share_price := some p }]) ++
        [{ type := TransactionType.SELL, amount := p * q,
           symbol := some s, quantity := some q,
           share_price := some p }]
      = a.transactions ++
        [{ type := TransactionType.BUY, amount := -(p * q),
           symbol := some s, quantity := some q,
           share_price := some p },
         { type := TransactionType.SELL, amount := p * q,
           symbol := some s, quantity := some q,
           share_price := some p }]
    simp

theorem claim_C10_buy_sell_roundtrip_witness :
    ∃ b c, Account.buy
        { account_id := "A", user_name := "U", cash_balance := 1000,
          total_deposits := 1000, holdings := [("TSLA", 3)],
          transactions := [] } "TSLA" 2 = Except.ok b
      ∧ b.sell "TSLA" 2 = Except.ok c
      ∧ c.cash_balance = (1000 : ℚ)
      ∧ c.holdings = [("TSLA", 3)]
      ∧ c.total_deposits = (1000 : ℚ)
      ∧ c.transactions = [] ++
          [{ type := TransactionType.BUY, amount := -((250 : ℚ) * 2),
             symbol := some "TSLA", quantity := some 2,
             share_price := some 250 },
           { type := TransactionType.SELL, amount := (250 : ℚ) * 2,
             symbol := some "TSLA", quantity := some 2,
             share_price := some 250 }] := by
  have h := claim_C10_buy_sell_roundtrip
    { account_id := "A", user_name := "U", cash_balance := 1000,
      total_deposits := 1000, holdings := [("TSLA", 3)],
      transactions := [] }
    "TSLA" 2 250 ⟨by decide, by decide⟩ (by decide)
    (by norm_num) (by push_cast; norm_num)
  simpa using h

end Accounts
